import Mathlib

/-!
Verification of the clash-speedtest core (`speedtester/speedtester.go`)

A shallow embedding of the proxy-registry assembly pipeline (`LoadProxies`,
`isStashCompatible`) and of the staged speed-test engine (`testProxy`,
`calculateLatencyStats`), together with theorems settling the spec claims.

Modelling conventions:
* Go `time.Duration` values are nanosecond counts, embedded as `Nat`
  (every duration produced by the code under test is non-negative).
* Go `float64` arithmetic on sizes/rates is embedded as exact `ℚ`
  arithmetic; `Duration.Seconds()` is division by `10 ^ 9`.
* External collaborators (HTTP fetches, YAML parsing, `adapter.ParseProxy`,
  `regexp`, `net.ParseIP`, the dial capability) are inputs: a failed fetch or
  parse is an `Option.none` input, the compiled allow-regex is a
  `String → Bool` parameter, the IPv4-mapped-address normalizer is a
  `String → String` parameter.
* Go map iteration order is non-deterministic; registries are embedded as
  association lists holding one fixed linearization of that order, with keys
  kept unique exactly as the Go `map` keeps them unique.
-/

namespace ClashSpeedtest

/-! ## Decimal rendering of the rename counter

`fmt.Sprintf("%s-重名%d", name, counter)` renders the counter in decimal.
`fmt` is external Go stdlib; we embed the decimal rendering directly:
digits least-significant first, then reversed into characters.
-/

/-- Least-significant-first decimal digits of `n`, driven by explicit fuel
so that every recursion is structural (`fuel = n + 1` always suffices). -/
def decDigitsAux : Nat → Nat → List Nat
  | 0, _ => []
  | fuel + 1, n => if n < 10 then [n] else n % 10 :: decDigitsAux fuel (n / 10)

/-- Least-significant-first decimal digits of `n`. -/
def decDigits (n : Nat) : List Nat := decDigitsAux (n + 1) n

/-- Value of a least-significant-first digit list. -/
def decValue : List Nat → Nat
  | [] => 0
  | d :: ds => d + 10 * decValue ds

/-- The character for one decimal digit. -/
def decDigitChar : Nat → Char
  | 0 => '0' | 1 => '1' | 2 => '2' | 3 => '3' | 4 => '4'
  | 5 => '5' | 6 => '6' | 7 => '7' | 8 => '8' | _ => '9'

/-- Back from a digit character to its value. -/
def decCharVal (c : Char) : Nat := c.toNat - 48

/-- Decimal rendering of a natural number, as Go `fmt` renders `%d`. -/
def natToString (n : Nat) : String :=
  ((decDigits n).reverse.map decDigitChar).asString

theorem decValue_decDigitsAux :
    ∀ (fuel n : Nat), n < 10 ^ fuel → decValue (decDigitsAux fuel n) = n := by
  intro fuel
  induction fuel with
  | zero =>
    intro n hn
    interval_cases n
    simp [decDigitsAux, decValue]
  | succ f ih =>
    intro n hn
    by_cases h : n < 10
    · simp [decDigitsAux, h, decValue]
    · have hdiv : n / 10 < 10 ^ f := by
        apply Nat.div_lt_of_lt_mul
        calc n < 10 ^ (f + 1) := hn
          _ = 10 * 10 ^ f := by ring
      simp only [decDigitsAux, if_neg h, decValue, ih _ hdiv]
      omega

theorem decValue_decDigits (n : Nat) : decValue (decDigits n) = n := by
  apply decValue_decDigitsAux
  calc n < n + 1 := Nat.lt_succ_self n
    _ ≤ 10 ^ (n + 1) := by
        have := Nat.lt_pow_self (by norm_num : 1 < 10) (n + 1)
        omega

theorem decDigitsAux_lt_ten :
    ∀ (fuel n : Nat), ∀ d ∈ decDigitsAux fuel n, d < 10 := by
  intro fuel
  induction fuel with
  | zero => intro n d hd; simp [decDigitsAux] at hd
  | succ f ih =>
    intro n d hd
    by_cases h : n < 10
    · simp [decDigitsAux, h] at hd; omega
    · simp only [decDigitsAux, if_neg h, List.mem_cons] at hd
      rcases hd with h1 | h2
      · subst h1; exact Nat.mod_lt _ (by norm_num)
      · exact ih _ _ h2

theorem decDigits_lt_ten (n : Nat) : ∀ d ∈ decDigits n, d < 10 :=
  decDigitsAux_lt_ten _ n

theorem decCharVal_decDigitChar {d : Nat} (hd : d < 10) :
    decCharVal (decDigitChar d) = d := by
  interval_cases d <;> decide

theorem map_decCharVal_map_decDigitChar :
    ∀ (l : List Nat), (∀ d ∈ l, d < 10) →
      (l.map decDigitChar).map decCharVal = l := by
  intro l
  induction l with
  | nil => intro _; simp
  | cons x xs ih =>
    intro hl
    simp only [List.map_cons, List.cons.injEq]
    exact ⟨decCharVal_decDigitChar (hl x (by simp)),
           ih (fun d hd => hl d (by simp [hd]))⟩

theorem natToString_injective : Function.Injective natToString := by
  intro a b hab
  have hdata : (decDigits a).reverse.map decDigitChar
      = (decDigits b).reverse.map decDigitChar := by
    simpa [natToString, List.asString] using congrArg String.data hab
  have hmap : (decDigits a).map decDigitChar = (decDigits b).map decDigitChar := by
    have := congrArg List.reverse hdata
    simpa [List.map_reverse] using this
  have hdig : decDigits a = decDigits b := by
    have h1 := map_decCharVal_map_decDigitChar (decDigits a) (decDigits_lt_ten a)
    have h2 := map_decCharVal_map_decDigitChar (decDigits b) (decDigits_lt_ten b)
    rw [← h1, ← h2, hmap]
  calc a = decValue (decDigits a) := (decValue_decDigits a).symm
    _ = decValue (decDigits b) := by rw [hdig]
    _ = b := decValue_decDigits b

/-! ## Duplicate-name resolution (`LoadProxies`, lines 127–141, 202–215, 250–263)

The Go loop
`counter := 1; for { newName := fmt.Sprintf("%s-重名%d", name, counter); ... }`
probes `name-重名1`, `name-重名2`, … until the map has no such key.  We embed
it with explicit fuel; `taken.length + 1` fuel always suffices because the
candidate names are pairwise distinct and the taken set is finite.
-/

/-- The candidate the Go loop builds for counter value `c`:
`fmt.Sprintf("%s-重名%d", k, c)`. -/
def renameCandidate (k : String) (c : Nat) : String :=
  k ++ "-重名" ++ natToString c

/-- The Go rename loop: starting from counter `c`, return the first candidate
not in `taken`.  Fuel only makes the recursion structural. -/
def renameFrom (taken : List String) (k : String) : Nat → Nat → String
  | 0, c => renameCandidate k c
  | fuel + 1, c =>
    if renameCandidate k c ∈ taken then renameFrom taken k fuel (c + 1)
    else renameCandidate k c

/-- Name under which a candidate proxy is inserted into a registry whose key
set is `taken`: the candidate's own name when free, otherwise the first free
`-重名N` variant (N counted from 1), exactly as in `LoadProxies`. -/
def freshName (taken : List String) (k : String) : String :=
  if k ∈ taken then renameFrom taken k (taken.length + 1) 1 else k

theorem renameCandidate_injective (k : String) :
    Function.Injective (renameCandidate k) := by
  intro a b hab
  have hdata := congrArg String.data hab
  simp [renameCandidate, String.data_append] at hdata
  exact natToString_injective (String.ext hdata)

/-- On fuel exhaustion aside, `renameFrom` returns the first free candidate:
if some candidate within the fuel window is free, the result is
`renameCandidate k (c + j)` for the least such offset `j`. -/
theorem renameFrom_spec (taken : List String) (k : String) :
    ∀ (fuel c : Nat), (∃ i < fuel, renameCandidate k (c + i) ∉ taken) →
      ∃ j, renameFrom taken k fuel c = renameCandidate k (c + j) ∧
        renameCandidate k (c + j) ∉ taken ∧
        ∀ i < j, renameCandidate k (c + i) ∈ taken := by
  intro fuel
  induction fuel with
  | zero =>
    intro c ⟨i, hi, _⟩
    omega
  | succ f ih =>
    intro c ⟨i, hi, hfree⟩
    by_cases h : renameCandidate k c ∈ taken
    · have hipos : i ≠ 0 := by
        intro h0
        subst h0
        simp at hfree
        exact hfree h
      obtain ⟨j, hj1, hj2, hj3⟩ := ih (c + 1)
        ⟨i - 1, by omega, by
          have : c + 1 + (i - 1) = c + i := by omega
          rw [this]; exact hfree⟩
      refine ⟨j + 1, ?_, ?_, ?_⟩
      · simp only [renameFrom, if_pos h]
        rw [hj1]
        congr 1
        omega
      · have : c + (j + 1) = c + 1 + j := by omega
        rw [this]; exact hj2
      · intro i' hi'
        rcases Nat.eq_zero_or_pos i' with h0 | hpos
        · subst h0; simpa using h
        · have : c + i' = c + 1 + (i' - 1) := by omega
          rw [this]
          exact hj3 (i' - 1) (by omega)
    · exact ⟨0, by simp [renameFrom, if_neg h], by simpa using h, by omega⟩

/-- Pigeonhole: among `taken.length + 1` consecutive rename candidates at
least one is not in `taken` (the candidates are pairwise distinct strings). -/
theorem exists_free_candidate (taken : List String) (k : String) (c : Nat) :
    ∃ i < taken.length + 1, renameCandidate k (c + i) ∉ taken := by
  by_contra hall
  push_neg at hall
  set l := (List.range (taken.length + 1)).map (fun i => renameCandidate k (c + i)) with hl
  have hnodup : l.Nodup := by
    apply List.Nodup.map _ (List.nodup_range _)
    intro a b hab
    have := renameCandidate_injective k hab
    omega
  have hsub : l ⊆ taken := by
    intro x hx
    simp only [hl, List.mem_map, List.mem_range] at hx
    obtain ⟨i, hi, rfl⟩ := hx
    exact hall i hi
  have hlen : l.length ≤ taken.length :=
    (List.subperm_of_subset hnodup hsub).length_le
  simp [hl] at hlen

/-- The inserted key is never already taken: the Go loop always terminates on
a free name (or the candidate itself was free). -/
theorem freshName_not_mem (taken : List String) (k : String) :
    freshName taken k ∉ taken := by
  unfold freshName
  by_cases h : k ∈ taken
  · simp only [if_pos h]
    obtain ⟨j, hj1, hj2, _⟩ :=
      renameFrom_spec taken k (taken.length + 1) 1
        (by
          obtain ⟨i, hi, hfree⟩ := exists_free_candidate taken k 1
          exact ⟨i, hi, hfree⟩)
    rw [hj1]; exact hj2
  · simpa [if_neg h] using h

/-- A free candidate name is kept unchanged. -/
theorem freshName_of_not_mem {taken : List String} {k : String}
    (h : k ∉ taken) : freshName taken k = k := by
  simp [freshName, h]

/-- On collision the result is the `-重名N` variant with the least counter
`N ≥ 1` whose name is free; every smaller counter's name is taken. -/
theorem freshName_of_mem {taken : List String} {k : String}
    (h : k ∈ taken) :
    ∃ n, 1 ≤ n ∧ freshName taken k = renameCandidate k n ∧
      renameCandidate k n ∉ taken ∧
      ∀ m, 1 ≤ m → m < n → renameCandidate k m ∈ taken := by
  obtain ⟨j, hj1, hj2, hj3⟩ :=
    renameFrom_spec taken k (taken.length + 1) 1 (exists_free_candidate taken k 1)
  refine ⟨1 + j, by omega, ?_, hj2, ?_⟩
  · simpa [freshName, h] using hj1
  · intro m hm1 hmn
    have : m = 1 + (m - 1) := by omega
    rw [this]
    exact hj3 (m - 1) (by omega)

/-! ## Data model -/

/-- The proxy protocol kinds distinguished by the code (`constant.*` of the
external mihomo library); `other` stands for every further kind. -/
inductive PType where
  | shadowsocks | shadowsocksr | snell | socks5 | http
  | vmess | vless | trojan | hysteria | hysteria2
  | wireguard | tuic | ssh | mieru | anytls | other
deriving DecidableEq, Repr

/-- A YAML value stored in a proxy's raw `map[string]any` configuration:
a string, a nested string-keyed map, or anything else. -/
inductive CVal where
  | str : String → CVal
  | map : List (String × CVal) → CVal
  | other : CVal

/-- A proxy's raw configuration, the Go `map[string]any`, as an association
list (one linearization; Go map keys are unique). -/
abbrev CConfig := List (String × CVal)

/-- Go map read `cfg[k]`. -/
def CConfig.get? (cfg : CConfig) (k : String) : Option CVal :=
  (cfg.find? (fun kv => kv.1 == k)).map (·.2)

/-- Go map write `cfg[k] = v` for a key already present (the only use in the
code is guarded by presence of the key). -/
def CConfig.set (cfg : CConfig) (k : String) (v : CVal) : CConfig :=
  cfg.map (fun kv => if kv.1 = k then (k, v) else kv)

/-- The `CProxy` of the source: the parsed proxy (its `Name()` and `Type()`)
plus the raw configuration it was parsed from. -/
structure CProxy where
  name : String
  ptype : PType
  config : CConfig

/-! ## String utilities (models of the external Go `strings` package) -/

/-- Go `strings.Split(s, "|")` on the underlying characters. -/
def splitOnChar : List Char → Char → List (List Char)
  | [], _ => [[]]
  | c :: t, sep =>
    let r := splitOnChar t sep
    if c == sep then [] :: r
    else
      match r with
      | [] => [[c]]
      | h :: t' => (c :: h) :: t'

/-- Whitespace as trimmed by Go `strings.TrimSpace` (the forms that occur in
configuration keyword lists). -/
def isSpaceChar (c : Char) : Bool :=
  c == ' ' || c == '\t' || c == '\n' || c == '\r'

/-- Go `strings.TrimSpace` on the underlying characters. -/
def trimChars (l : List Char) : List Char :=
  ((l.dropWhile isSpaceChar).reverse.dropWhile isSpaceChar).reverse

/-- Go `strings.ToLower` on the underlying characters. -/
def lowerChars (l : List Char) : List Char := l.map Char.toLower

/-- Does `pre` start `s`? (helper for the substring test). -/
def startsWithChars : List Char → List Char → Bool
  | [], _ => true
  | _ :: _, [] => false
  | a :: as, b :: bs => a == b && startsWithChars as bs

/-- Go `strings.Contains s sub` on the underlying characters. -/
def containsChars : List Char → List Char → Bool
  | s, sub =>
    if startsWithChars sub s then true
    else
      match s with
      | [] => false
      | _ :: t => containsChars t sub

/-! ## Registry insertion with duplicate-name resolution -/

/-- Insert a value into a registry under its candidate name, renaming on
collision exactly as `LoadProxies` does (`proxies[proxyName] = …` after the
`重名` loop). -/
def insertNamed {α : Type} (m : List (String × α)) (k : String) (v : α) :
    List (String × α) :=
  m ++ [(freshName (m.map Prod.fst) k, v)]

/-- Go map read used for the provider-config join. -/
def lookupAssoc {α : Type} (m : List (String × α)) (k : String) : Option α :=
  (m.find? (fun kv => kv.1 == k)).map (·.2)

/-- Go map write `m[k] = v` (overwrite or append). -/
def setAssoc {α : Type} (m : List (String × α)) (k : String) (v : α) :
    List (String × α) :=
  if k ∈ m.map Prod.fst then m.map (fun kv => if kv.1 = k then (k, v) else kv)
  else m ++ [(k, v)]

/-! ## Source parsing results (external fetch/parse outcomes as inputs) -/

/-- What one provider contributes once every fallible external step
(`ParseProxyProvider`, `Initial`, URL extraction, fetch, read, YAML parse)
has succeeded: the provider's parsed proxies (`pd.Proxies()`: name and type)
and the raw proxy maps of the provider document. -/
structure ProviderRaw where
  plist : List (String × PType)
  rawCfgs : List CConfig

/-- One configuration source after fetch and YAML parse: directly declared
proxies (`none` entries are `adapter.ParseProxy` failures, skipped) and the
named providers (`none` marks any provider-stage failure, skipped). -/
structure SourceData where
  direct : List (Option CProxy)
  providers : List (String × Option ProviderRaw)

/-- The `provider.ReservedName` constant of the external mihomo library. -/
def reservedProviderName : String := "default"

/-- Lines 190–196: build the name-keyed map of the provider document's raw
proxy configurations (later duplicates overwrite, as Go map writes do). -/
def buildCfgMap (raw : List CConfig) : List (String × CConfig) :=
  raw.foldl
    (fun acc cfg =>
      match CConfig.get? cfg "name" with
      | some (.str n) => setAssoc acc n cfg
      | _ => acc) []

/-- Lines 119–142: add the directly declared proxies of one source to its
per-source registry, skipping parse failures, renaming duplicates. -/
def addDirect (m : List (String × CProxy)) (entries : List (Option CProxy)) :
    List (String × CProxy) :=
  entries.foldl
    (fun m e =>
      match e with
      | none => m
      | some p => insertNamed m p.name p) m

/-- Lines 198–223: add one provider's proxies under `"[provider] name"`
keys, keeping only proxies whose configuration appears in the provider
document, renaming duplicates. -/
def addProvider (m : List (String × CProxy)) (pname : String)
    (pr : ProviderRaw) : List (String × CProxy) :=
  let cfgMap := buildCfgMap pr.rawCfgs
  pr.plist.foldl
    (fun m pp =>
      let full := "[" ++ pname ++ "] " ++ pp.1
      match lookupAssoc cfgMap pp.1 with
      | some cfg => insertNamed m full ⟨pp.1, pp.2, cfg⟩
      | none => m) m

/-- Lines 144–224: process all providers of one source (reserved name and
failed providers are skipped). -/
def addProviders (m : List (String × CProxy))
    (provs : List (String × Option ProviderRaw)) : List (String × CProxy) :=
  provs.foldl
    (fun m pr =>
      match pr.2 with
      | none => m
      | some raw =>
        if pr.1 = reservedProviderName then m else addProvider m pr.1 raw) m

/-- The per-source registry `proxies` of one successfully fetched and parsed
source (lines 115–224). -/
def buildSource (s : SourceData) : List (String × CProxy) :=
  addProviders (addDirect [] s.direct) s.providers

/-! ## Type and compatibility filters -/

/-- Lines 229–237: the fixed supported-type enumeration. -/
def supportedType : PType → Bool
  | .shadowsocks | .shadowsocksr | .snell | .socks5 | .http
  | .vmess | .vless | .trojan | .hysteria | .hysteria2
  | .wireguard | .tuic | .ssh | .mieru | .anytls => true
  | .other => false

/-- One `if v, ok := cfg[key]; ok { switch v { case …: default: return false } }`
pattern: absent keys pass, a present string must be in the allow list, a
present non-string value matches no case and fails. -/
def paramOk (cfg : CConfig) (key : String) (allowed : List String) : Bool :=
  match CConfig.get? cfg key with
  | none => true
  | some (.str s) => allowed.contains s
  | some _ => false

/-- Lines 318–403: `isStashCompatible`, translated case by case. -/
def isStashCompatible (p : CProxy) : Bool :=
  match p.ptype with
  | .shadowsocks =>
    paramOk p.config "cipher"
      ["aes-128-gcm", "aes-192-gcm", "aes-256-gcm",
       "aes-128-cfb", "aes-192-cfb", "aes-256-cfb",
       "aes-128-ctr", "aes-192-ctr", "aes-256-ctr",
       "rc4-md5", "chacha20", "chacha20-ietf", "xchacha20",
       "chacha20-ietf-poly1305", "xchacha20-ietf-poly1305",
       "2022-blake3-aes-128-gcm", "2022-blake3-aes-256-gcm"]
  | .shadowsocksr =>
    paramOk p.config "obfs"
      ["plain", "http_simple", "http_post", "random_head",
       "tls1.2_ticket_auth", "tls1.2_ticket_fastauth"] &&
    paramOk p.config "protocol"
      ["origin", "auth_sha1_v4", "auth_aes128_md5",
       "auth_aes128_sha1", "auth_chain_a", "auth_chain_b"]
  | .snell =>
    match CConfig.get? p.config "obfs-opts" with
    | some (.map m) => paramOk m "mode" ["http", "tls"]
    | _ => true
  | .socks5 | .http => true
  | .vmess =>
    paramOk p.config "cipher" ["auto", "aes-128-gcm", "chacha20-poly1305", "none"] &&
    paramOk p.config "network" ["ws", "h2", "http", "grpc"]
  | .vless =>
    paramOk p.config "flow"
      ["xtls-rprx-origin", "xtls-rprx-direct", "xtls-rprx-splice", "xtls-rprx-vision"]
  | .trojan => paramOk p.config "network" ["ws", "grpc"]
  | .hysteria | .hysteria2 | .wireguard | .tuic | .ssh => true
  | .mieru | .anytls | .other => false

/-- Lines 239–242: normalize an IPv4-mapped-IPv6 server address.  The
conversion itself (`net.ParseIP`/`To4`) is external Go stdlib, passed in as
`ipFix`.  (The source's `.(string)` type assertion would panic on a present
non-string `server` value; no claim touches that path and the model leaves
the entry unchanged there.) -/
def fixServer (ipFix : String → String) (p : CProxy) : CProxy :=
  match CConfig.get? p.config "server" with
  | some (.str s) => { p with config := CConfig.set p.config "server" (.str (ipFix s)) }
  | _ => p

/-- Lines 226–265: merge one source's registry into the global registry,
dropping unsupported types, fixing the server address, optionally dropping
Stash-incompatible entries, and renaming cross-source duplicates. -/
def mergeSource (stash : Bool) (ipFix : String → String)
    (acc : List (String × CProxy)) (src : List (String × CProxy)) :
    List (String × CProxy) :=
  src.foldl
    (fun acc kp =>
      if supportedType kp.2.ptype then
        let p := fixServer ipFix kp.2
        if stash && !isStashCompatible p then acc
        else insertNamed acc kp.1 p
      else acc) acc

/-- Lines 70–268: the merged registry `allProxies` over all sources; a
`none` source is a fetch/read/parse failure and is skipped. -/
def mergedProxies (stash : Bool) (ipFix : String → String)
    (sources : List (Option SourceData)) : List (String × CProxy) :=
  sources.foldl
    (fun acc s =>
      match s with
      | none => acc
      | some sd => mergeSource stash ipFix acc (buildSource sd)) []

/-! ## Name filters and the final result -/

/-- Lines 272–280: split `BlockRegex` on `|`, trim each keyword, drop empty
ones, lower-case the rest. -/
def blockKeywords (blockRegex : String) : List (List Char) :=
  if blockRegex = "" then []
  else
    (((splitOnChar blockRegex.data '|').map trimChars).filter
      (fun w => w ≠ [])).map lowerChars

/-- Lines 284–296: a name is blocked when its lower-cased form contains some
block keyword as a substring. -/
def isBlocked (kws : List (List Char)) (name : String) : Bool :=
  kws.any (fun kw => containsChars (lowerChars name.data) kw)

/-- Lines 282–306: keep the proxies that are not blocked and whose name
matches the compiled allow pattern. -/
def filterProxies (allow : String → Bool) (kws : List (List Char))
    (m : List (String × CProxy)) : List (String × CProxy) :=
  m.filter (fun kp => !isBlocked kws kp.1 && allow kp.1)

/-- The error of line 312. -/
def noProxiesMsg : String := "no valid proxies loaded from configs"

/-- Lines 70–316: `LoadProxies`.  `compiledFilter` is the outcome of the
external `regexp.Compile` on `FilterRegex`; `regexp.MustCompile` panics when
it fails, which the model returns as `none`.  Otherwise the filtered registry
is returned, or the named error when it is empty. -/
def loadProxies (stash : Bool) (ipFix : String → String)
    (compiledFilter : Option (String → Bool)) (blockRegex : String)
    (sources : List (Option SourceData)) :
    Option (Except String (List (String × CProxy))) :=
  match compiledFilter with
  | none => none
  | some allow =>
    let filtered :=
      filterProxies allow (blockKeywords blockRegex)
        (mergedProxies stash ipFix sources)
    if filtered.isEmpty then some (.error noProxiesMsg) else some (.ok filtered)

/-! ## Speed-test engine (`testProxy`, lines 467–575) -/

/-- The engine configuration (the source's `Config`, lines 24–37).  Byte
sizes and durations are non-negative after `New`'s normalization (lines
45–58); durations are nanoseconds. -/
structure Config where
  configPaths : String := ""
  filterRegex : String := ""
  blockRegex : String := ""
  serverURL : String := ""
  downloadSize : Nat := 0
  uploadSize : Nat := 0
  timeout : Nat := 0
  concurrent : Nat := 1
  maxLatency : Nat := 0
  minDownloadSpeed : ℚ := 0
  minUploadSpeed : ℚ := 0
  fastMode : Bool := false

/-- One successful chunk sub-task's measurement (`downloadResult`, lines
614–617): bytes transferred and elapsed nanoseconds. -/
structure ChunkResult where
  bytes : Nat
  duration : Nat

/-- The per-proxy measurement record (`Result`, lines 416–429), with every
trailing field zero by default. -/
structure Result where
  proxyName : String
  proxyType : PType
  proxyConfig : CConfig
  latency : Nat := 0
  jitter : Nat := 0
  packetLoss : ℚ := 0
  downloadSize : ℚ := 0
  downloadTime : Nat := 0
  downloadSpeed : ℚ := 0
  uploadSize : ℚ := 0
  uploadTime : Nat := 0
  uploadSpeed : ℚ := 0

/-- The network outcomes of one `testProxy` run, as inputs: whether the probe
`client.Get` returned an error, its status code and elapsed time otherwise,
and the outcome of each concurrent chunk sub-task (`nil` = `none`). -/
structure TestEnv where
  probeErr : Bool
  probeStatus : Nat
  probeLatency : Nat
  downloadChunks : List (Option ChunkResult)
  uploadChunks : List (Option ChunkResult)

/-- Go `time.Duration.Seconds()`: nanoseconds over `10 ^ 9`, exactly. -/
def durationSeconds (d : Nat) : ℚ := (d : ℚ) / 1000000000

/-- The channel-draining loop (lines 523–529 resp. 558–564): total bytes,
total duration and success count over the chunk results; a `nil` chunk
contributes nothing. -/
def aggregateChunks (rs : List (Option ChunkResult)) : Nat × Nat × Nat :=
  rs.foldl
    (fun acc r =>
      match r with
      | none => acc
      | some cr => (acc.1 + cr.bytes, acc.2.1 + cr.duration, acc.2.2 + 1))
    (0, 0, 0)

/-- Lines 532–536: populate the download fields when at least one chunk
succeeded.  `DownloadTime` is Go `Duration` division, i.e. the integer
quotient of nanosecond total by count. -/
def applyDownload (r : Result) (rs : List (Option ChunkResult)) : Result :=
  let agg := aggregateChunks rs
  if 0 < agg.2.2 then
    let dt := agg.2.1 / agg.2.2
    { r with
      downloadSize := (agg.1 : ℚ)
      downloadTime := dt
      downloadSpeed := (agg.1 : ℚ) / durationSeconds dt }
  else r

/-- Lines 567–571: the same aggregation for the upload stage. -/
def applyUpload (r : Result) (rs : List (Option ChunkResult)) : Result :=
  let agg := aggregateChunks rs
  if 0 < agg.2.2 then
    let ut := agg.2.1 / agg.2.2
    { r with
      uploadSize := (agg.1 : ℚ)
      uploadTime := ut
      uploadSpeed := (agg.1 : ℚ) / durationSeconds ut }
  else r

/-- Lines 468–472: the result skeleton with only the identity fields set. -/
def baseResult (key : String) (p : CProxy) : Result :=
  { proxyName := key, proxyType := p.ptype, proxyConfig := p.config }

/-- Lines 467–575: `testProxy`.  Probe failure and non-200 status return the
zero result; fast mode returns after the probe; a latency above the ceiling
returns after the probe; the download stage runs when the chunk size is
positive and gates the upload stage on `MinDownloadSpeed`; the upload stage
is final. -/
def testProxy (cfg : Config) (key : String) (p : CProxy) (env : TestEnv) :
    Result :=
  if env.probeErr then baseResult key p
  else if env.probeStatus ≠ 200 then baseResult key p
  else
    let r1 := { baseResult key p with latency := env.probeLatency }
    if cfg.fastMode then r1
    else if cfg.maxLatency < env.probeLatency then r1
    else
      let dcs := cfg.downloadSize / cfg.concurrent
      let r2 := if 0 < dcs then applyDownload r1 env.downloadChunks else r1
      if 0 < dcs ∧ r2.downloadSpeed < cfg.minDownloadSpeed then r2
      else
        let ucs := cfg.uploadSize / cfg.concurrent
        if 0 < ucs then applyUpload r2 env.uploadChunks else r2

/-! ## Latency statistics (`calculateLatencyStats`, lines 688–714) -/

/-- The auxiliary latency statistics record (lines 577–581). -/
structure LatencyResult where
  avgLatency : Nat := 0
  jitter : Nat := 0
  packetLoss : ℚ := 0

/-- Lines 688–714: `calculateLatencyStats`.  `packetLoss` is
`failed / 6 * 100`; with samples, the average is Go `Duration` division
(nanosecond integer quotient) and the jitter is
`time.Duration(math.Sqrt(variance))`, i.e. the integer part of the square
root of the variance about that truncated average — which for a non-negative
rational `v` is `Nat.sqrt ⌊v⌋` (`⌊√v⌋ = ⌊√⌊v⌋⌋` since `k ≤ √v ↔ k ^ 2 ≤ v`
for integer `k`). -/
def calculateLatencyStats (latencies : List Nat) (failedPings : Nat) :
    LatencyResult :=
  let pl : ℚ := (failedPings : ℚ) / 6 * 100
  if latencies.length = 0 then { packetLoss := pl }
  else
    let total := latencies.foldl (· + ·) 0
    let avg := total / latencies.length
    let variance : ℚ :=
      (latencies.foldl (fun acc l => acc + ((l : ℚ) - (avg : ℚ)) * ((l : ℚ) - (avg : ℚ))) 0) /
        (latencies.length : ℚ)
    { avgLatency := avg
      jitter := Nat.sqrt (Int.toNat ⌊variance⌋)
      packetLoss := pl }

/-! ## Spec-side comparison definitions

These follow the words of the specification (sum, arithmetic mean,
population variance) and are only used to compare the code's aggregation
against them. -/

/-- Spec: the sum of the successful chunks' byte counts. -/
def specSumBytes (rs : List (Option ChunkResult)) : Nat :=
  ((rs.filterMap id).map (·.bytes)).sum

/-- Spec: the total duration of the successful chunks. -/
def specSumDur (rs : List (Option ChunkResult)) : Nat :=
  ((rs.filterMap id).map (·.duration)).sum

/-- Spec: the number of successful chunks. -/
def specSuccCount (rs : List (Option ChunkResult)) : Nat :=
  (rs.filterMap id).length

/-- Spec: the arithmetic mean of the successful chunks' durations. -/
def specMeanDur (rs : List (Option ChunkResult)) : ℚ :=
  (specSumDur rs : ℚ) / (specSuccCount rs : ℚ)

/-- Spec: the arithmetic mean of a list of latency samples. -/
def specMeanLat (l : List Nat) : ℚ := ((l.map (Nat.cast)).sum : ℚ) / (l.length : ℚ)

theorem aggregateChunks_eq (rs : List (Option ChunkResult)) :
    aggregateChunks rs = (specSumBytes rs, specSumDur rs, specSuccCount rs) := by
  suffices h : ∀ (b d c : Nat),
      rs.foldl
        (fun acc r =>
          match r with
          | none => acc
          | some cr => (acc.1 + cr.bytes, acc.2.1 + cr.duration, acc.2.2 + 1))
        (b, d, c)
      = (b + specSumBytes rs, d + specSumDur rs, c + specSuccCount rs) by
    simpa [aggregateChunks] using h 0 0 0
  induction rs with
  | nil => intro b d c; simp [specSumBytes, specSumDur, specSuccCount]
  | cons x xs ih =>
    intro b d c
    cases x with
    | none =>
      simp only [List.foldl_cons, ih]
      simp [specSumBytes, specSumDur, specSuccCount]
    | some cr =>
      simp only [List.foldl_cons, ih]
      simp [specSumBytes, specSumDur, specSuccCount]
      omega

/-! ## Helper lemmas -/

theorem fixServer_ptype (ipFix : String → String) (p : CProxy) :
    (fixServer ipFix p).ptype = p.ptype := by
  unfold fixServer
  split <;> rfl

theorem isStashCompatible_eq_false_of_mieru {p : CProxy}
    (h : p.ptype = .mieru) : isStashCompatible p = false := by
  simp only [isStashCompatible, h]

theorem isStashCompatible_eq_false_of_anytls {p : CProxy}
    (h : p.ptype = .anytls) : isStashCompatible p = false := by
  simp only [isStashCompatible, h]

theorem applyDownload_upload_fields (r : Result) (rs : List (Option ChunkResult)) :
    (applyDownload r rs).uploadSize = r.uploadSize ∧
    (applyDownload r rs).uploadTime = r.uploadTime ∧
    (applyDownload r rs).uploadSpeed = r.uploadSpeed := by
  simp only [applyDownload]
  split <;> simp

/-! ## Claim theorems -/

/-- Claim C2. `testProxy` is total (the embedding is a plain function into
`Result`), and for every run whose probe `GET` fails or answers a non-200
status, the returned record is the zero-valued result in every field except
`ProxyName`, `ProxyType` and `ProxyConfig`. -/
theorem testProxy_probe_failure_zero_result
    (cfg : Config) (key : String) (p : CProxy) (env : TestEnv)
    (h : env.probeErr = true ∨ env.probeStatus ≠ 200) :
    testProxy cfg key p env =
      { proxyName := key, proxyType := p.ptype, proxyConfig := p.config,
        latency := 0, jitter := 0, packetLoss := 0,
        downloadSize := 0, downloadTime := 0, downloadSpeed := 0,
        uploadSize := 0, uploadTime := 0, uploadSpeed := 0 } := by
  rcases h with h | h
  · simp [testProxy, h, baseResult]
  · by_cases he : env.probeErr <;> simp [testProxy, h, he, baseResult]

/-- Witness for C2: a concrete non-200 probe yields the zero result. -/
theorem testProxy_probe_failure_zero_result_witness :
    testProxy {} "node" ⟨"node", .vmess, []⟩
        ⟨false, 503, 7, [], []⟩ =
      { proxyName := "node", proxyType := .vmess, proxyConfig := [],
        latency := 0, jitter := 0, packetLoss := 0,
        downloadSize := 0, downloadTime := 0, downloadSpeed := 0,
        uploadSize := 0, uploadTime := 0, uploadSpeed := 0 } :=
  testProxy_probe_failure_zero_result {} "node" ⟨"node", .vmess, []⟩
    ⟨false, 503, 7, [], []⟩ (Or.inr (by decide))

/-- Claim C7. After a successful probe: in fast mode the engine returns at once
with only `latency` populated and without applying the max-latency ceiling
(the same result comes back even when the latency exceeds `MaxLatency`);
out of fast mode, a latency above the ceiling likewise returns with only
`latency` populated. -/
theorem testProxy_fast_mode_skips_ceiling
    (cfg : Config) (key : String) (p : CProxy) (env : TestEnv)
    (hok : env.probeErr = false) (hst : env.probeStatus = 200) :
    (cfg.fastMode = true →
      testProxy cfg key p env =
        { proxyName := key, proxyType := p.ptype, proxyConfig := p.config,
          latency := env.probeLatency }) ∧
    (cfg.fastMode = true → cfg.maxLatency < env.probeLatency →
      testProxy cfg key p env =
        { proxyName := key, proxyType := p.ptype, proxyConfig := p.config,
          latency := env.probeLatency }) ∧
    (cfg.fastMode = false → cfg.maxLatency < env.probeLatency →
      testProxy cfg key p env =
        { proxyName := key, proxyType := p.ptype, proxyConfig := p.config,
          latency := env.probeLatency }) := by
  refine ⟨fun hf => ?_, fun hf _ => ?_, fun hf hlat => ?_⟩ <;>
    simp [testProxy, hok, hst, hf, baseResult]
  simp [hlat]

/-- Witness for C7: fast mode with latency 700 above a ceiling of 500 still
returns the latency-only result; without fast mode the same inputs also
return the latency-only result. -/
theorem testProxy_fast_mode_skips_ceiling_witness :
    (testProxy { maxLatency := 500, fastMode := true } "n" ⟨"n", .ssh, []⟩
        ⟨false, 200, 700, [], []⟩ =
      { proxyName := "n", proxyType := .ssh, proxyConfig := [], latency := 700 }) ∧
    (testProxy { maxLatency := 500, fastMode := false } "n" ⟨"n", .ssh, []⟩
        ⟨false, 200, 700, [], []⟩ =
      { proxyName := "n", proxyType := .ssh, proxyConfig := [], latency := 700 }) :=
  ⟨(testProxy_fast_mode_skips_ceiling { maxLatency := 500, fastMode := true }
      "n" ⟨"n", .ssh, []⟩ ⟨false, 200, 700, [], []⟩ rfl rfl).2.1 rfl (by decide),
   (testProxy_fast_mode_skips_ceiling { maxLatency := 500, fastMode := false }
      "n" ⟨"n", .ssh, []⟩ ⟨false, 200, 700, [], []⟩ rfl rfl).2.2 rfl (by decide)⟩

/-- Claim C9. When `FilterRegex` does not compile (the external
`regexp.Compile` yields no matcher), `LoadProxies` panics via
`regexp.MustCompile` — modelled as the `none` outcome — rather than
returning an error value; whenever the pattern compiles, the run completes
with a value (error or registry). -/
theorem loadProxies_invalid_regex_panics
    (stash : Bool) (ipFix : String → String) (br : String)
    (sources : List (Option SourceData)) :
    loadProxies stash ipFix none br sources = none ∧
    ∀ allow : String → Bool,
      (loadProxies stash ipFix (some allow) br sources).isSome = true := by
  refine ⟨rfl, fun allow => ?_⟩
  simp only [loadProxies]
  split <;> simp

/-- Claim C10. With the Stash-compatibility filter enabled, every proxy of
type Mieru or AnyTLS is excluded by `isStashCompatible`'s default case —
both types pass the supported-type filter, and the exclusion holds for every
configuration, in particular one with no compatibility-relevant parameters
at all — so the merge step never adds such an entry to the registry. -/
theorem mieru_anytls_excluded_when_stash
    (nm : String) (cfgm cfga : CConfig) (acc : List (String × CProxy))
    (k : String) (ipFix : String → String) :
    supportedType .mieru = true ∧ supportedType .anytls = true ∧
    isStashCompatible ⟨nm, .mieru, cfgm⟩ = false ∧
    isStashCompatible ⟨nm, .anytls, cfga⟩ = false ∧
    mergeSource true ipFix acc [(k, ⟨nm, .mieru, cfgm⟩)] = acc ∧
    mergeSource true ipFix acc [(k, ⟨nm, .anytls, cfga⟩)] = acc := by
  have h1 : isStashCompatible (fixServer ipFix ⟨nm, .mieru, cfgm⟩) = false :=
    isStashCompatible_eq_false_of_mieru (fixServer_ptype _ _)
  have h2 : isStashCompatible (fixServer ipFix ⟨nm, .anytls, cfga⟩) = false :=
    isStashCompatible_eq_false_of_anytls (fixServer_ptype _ _)
  refine ⟨rfl, rfl, rfl, rfl, ?_, ?_⟩ <;>
    simp [mergeSource, supportedType, h1, h2]

theorem applyUpload_download_fields (r : Result) (rs : List (Option ChunkResult)) :
    (applyUpload r rs).downloadSize = r.downloadSize ∧
    (applyUpload r rs).downloadTime = r.downloadTime ∧
    (applyUpload r rs).downloadSpeed = r.downloadSpeed := by
  simp only [applyUpload]
  split <;> simp

/-- Claim C3. When the download stage runs and its aggregated speed is below
`MinDownloadSpeed`, `testProxy` returns right after the download stage: the
upload stage does not execute and the upload fields stay zero.  Conversely
the engine never consults `MinUploadSpeed`: the result is invariant under
every change of that field. -/
theorem testProxy_min_download_speed_gates_upload
    (cfg : Config) (key : String) (p : CProxy) (env : TestEnv)
    (hok : env.probeErr = false) (hst : env.probeStatus = 200)
    (hfm : cfg.fastMode = false) (hlat : env.probeLatency ≤ cfg.maxLatency)
    (hchunks : env.downloadChunks.length = cfg.concurrent)
    (hdcs : 0 < cfg.downloadSize / cfg.concurrent)
    (hslow : (applyDownload { baseResult key p with latency := env.probeLatency }
        env.downloadChunks).downloadSpeed < cfg.minDownloadSpeed) :
    testProxy cfg key p env =
      applyDownload { baseResult key p with latency := env.probeLatency }
        env.downloadChunks ∧
    (testProxy cfg key p env).uploadSize = 0 ∧
    (testProxy cfg key p env).uploadTime = 0 ∧
    (testProxy cfg key p env).uploadSpeed = 0 ∧
    ∀ (cfg' : Config) (v : ℚ) (env' : TestEnv),
      testProxy { cfg' with minUploadSpeed := v } key p env' =
        testProxy cfg' key p env' := by
  have hnl : ¬ cfg.maxLatency < env.probeLatency := Nat.not_lt.mpr hlat
  have heq : testProxy cfg key p env =
      applyDownload { baseResult key p with latency := env.probeLatency }
        env.downloadChunks := by
    simp [testProxy, hok, hst, hfm, hnl, hdcs, hslow]
  obtain ⟨u1, u2, u3⟩ :=
    applyDownload_upload_fields
      { baseResult key p with latency := env.probeLatency } env.downloadChunks
  refine ⟨heq, ?_, ?_, ?_, fun cfg' v env' => by cases cfg'; rfl⟩
  · rw [heq]; simpa [baseResult] using u1
  · rw [heq]; simpa [baseResult] using u2
  · rw [heq]; simpa [baseResult] using u3

/-- Witness for C3: an aggregated rate of 1000 B/s against
`MinDownloadSpeed = 5000000` leaves every upload field zero. -/
theorem testProxy_min_download_speed_gates_upload_witness :
    (testProxy
        { downloadSize := 4, concurrent := 2, maxLatency := 10,
          minDownloadSpeed := 5000000 } "n" ⟨"n", .ssh, []⟩
        ⟨false, 200, 5, [some ⟨1000, 1000000000⟩, none], [some ⟨7, 7⟩, none]⟩).uploadSize = 0 ∧
    (testProxy
        { downloadSize := 4, concurrent := 2, maxLatency := 10,
          minDownloadSpeed := 5000000 } "n" ⟨"n", .ssh, []⟩
        ⟨false, 200, 5, [some ⟨1000, 1000000000⟩, none], [some ⟨7, 7⟩, none]⟩).uploadTime = 0 ∧
    (testProxy
        { downloadSize := 4, concurrent := 2, maxLatency := 10,
          minDownloadSpeed := 5000000 } "n" ⟨"n", .ssh, []⟩
        ⟨false, 200, 5, [some ⟨1000, 1000000000⟩, none], [some ⟨7, 7⟩, none]⟩).uploadSpeed = 0 := by
  have h := testProxy_min_download_speed_gates_upload
    { downloadSize := 4, concurrent := 2, maxLatency := 10,
      minDownloadSpeed := 5000000 } "n" ⟨"n", .ssh, []⟩
    ⟨false, 200, 5, [some ⟨1000, 1000000000⟩, none], [some ⟨7, 7⟩, none]⟩
    rfl rfl rfl (by decide) (by decide) (by decide)
    (by norm_num [applyDownload, aggregateChunks, durationSeconds, baseResult])
  exact ⟨h.2.1, h.2.2.1, h.2.2.2.1⟩

/-- Download fields of the final result are those set by the download stage:
the later upload stage never touches them. -/
theorem testProxy_download_fields
    (cfg : Config) (key : String) (p : CProxy) (env : TestEnv)
    (hok : env.probeErr = false) (hst : env.probeStatus = 200)
    (hfm : cfg.fastMode = false) (hlat : env.probeLatency ≤ cfg.maxLatency)
    (hdcs : 0 < cfg.downloadSize / cfg.concurrent) :
    (testProxy cfg key p env).downloadSize =
      (applyDownload { baseResult key p with latency := env.probeLatency }
        env.downloadChunks).downloadSize ∧
    (testProxy cfg key p env).downloadTime =
      (applyDownload { baseResult key p with latency := env.probeLatency }
        env.downloadChunks).downloadTime ∧
    (testProxy cfg key p env).downloadSpeed =
      (applyDownload { baseResult key p with latency := env.probeLatency }
        env.downloadChunks).downloadSpeed := by
  have hnl : ¬ cfg.maxLatency < env.probeLatency := Nat.not_lt.mpr hlat
  set r2 := applyDownload { baseResult key p with latency := env.probeLatency }
    env.downloadChunks with hr2
  by_cases hg : r2.downloadSpeed < cfg.minDownloadSpeed
  · simp [testProxy, hok, hst, hfm, hnl, hdcs, hg, ← hr2]
  · obtain ⟨d1, d2, d3⟩ := applyUpload_download_fields r2 env.uploadChunks
    by_cases hu : 0 < cfg.uploadSize / cfg.concurrent <;>
      simp [testProxy, hok, hst, hfm, hnl, hdcs, hg, hu, ← hr2, d1, d2, d3]

/-- Claim C1 (amended). For a download stage run with at least one successful
chunk: `DownloadSize` is the sum of the successful chunks' byte counts,
`DownloadTime` is the *integer nanosecond quotient* of the total successful
duration by the success count — the floor of the arithmetic mean, equal to
the exact mean whenever the total divides evenly, as in the spec's
3 × (1000 B, 1 s) example — and `DownloadSpeed` is `DownloadSize` divided by
`DownloadTime` in seconds; a failed chunk contributes nothing.  If every
chunk fails, all three fields stay zero. -/
theorem testProxy_download_aggregation
    (cfg : Config) (key : String) (p : CProxy) (env : TestEnv)
    (hok : env.probeErr = false) (hst : env.probeStatus = 200)
    (hfm : cfg.fastMode = false) (hlat : env.probeLatency ≤ cfg.maxLatency)
    (hchunks : env.downloadChunks.length = cfg.concurrent)
    (hdcs : 0 < cfg.downloadSize / cfg.concurrent) :
    (0 < specSuccCount env.downloadChunks →
      (testProxy cfg key p env).downloadSize = (specSumBytes env.downloadChunks : ℚ) ∧
      (testProxy cfg key p env).downloadTime = ⌊specMeanDur env.downloadChunks⌋₊ ∧
      (testProxy cfg key p env).downloadSpeed =
        (testProxy cfg key p env).downloadSize /
          durationSeconds (testProxy cfg key p env).downloadTime) ∧
    (specSuccCount env.downloadChunks = 0 →
      (testProxy cfg key p env).downloadSize = 0 ∧
      (testProxy cfg key p env).downloadTime = 0 ∧
      (testProxy cfg key p env).downloadSpeed = 0) := by
  obtain ⟨d1, d2, d3⟩ := testProxy_download_fields cfg key p env hok hst hfm hlat hdcs
  have hfloor : ⌊specMeanDur env.downloadChunks⌋₊
      = specSumDur env.downloadChunks / specSuccCount env.downloadChunks := by
    rw [specMeanDur, Nat.floor_div_nat, Nat.floor_natCast]
  rw [d1, d2, d3]
  constructor
  · intro hpos
    simp [applyDownload, aggregateChunks_eq, if_pos hpos, hfloor]
  · intro hzero
    simp [applyDownload, aggregateChunks_eq, hzero, baseResult]

/-- Counterexample to C1 as stated: two successful chunks lasting 1 ns and
2 ns yield `DownloadTime = 1` ns (Go `Duration` integer division of 3 ns by
2), not the arithmetic mean 3/2 ns. -/
theorem testProxy_download_time_not_mean :
    ((testProxy { downloadSize := 4, concurrent := 2, maxLatency := 10 } "n"
        ⟨"n", .ssh, []⟩
        ⟨false, 200, 5, [some ⟨100, 1⟩, some ⟨100, 2⟩], []⟩).downloadTime : ℚ)
      ≠ specMeanDur [some ⟨100, 1⟩, some ⟨100, 2⟩] := by
  norm_num [testProxy, baseResult, applyDownload, aggregateChunks,
    durationSeconds, specMeanDur, specSumDur, specSuccCount,
    List.filterMap_cons, List.filterMap_nil]

/-- Witness for C1 (amended), at the spec's own example: three successful
chunks of 1000 bytes in 1 s each plus one failed chunk give
`DownloadSize = 3000`, `DownloadTime = 1 s`, `DownloadSpeed = 3000 B/s`. -/
theorem testProxy_download_aggregation_witness :
    (testProxy { downloadSize := 4, concurrent := 4, maxLatency := 10 } "n"
        ⟨"n", .ssh, []⟩
        ⟨false, 200, 5,
          [some ⟨1000, 1000000000⟩, some ⟨1000, 1000000000⟩,
           some ⟨1000, 1000000000⟩, none], []⟩).downloadSize = 3000 ∧
    (testProxy { downloadSize := 4, concurrent := 4, maxLatency := 10 } "n"
        ⟨"n", .ssh, []⟩
        ⟨false, 200, 5,
          [some ⟨1000, 1000000000⟩, some ⟨1000, 1000000000⟩,
           some ⟨1000, 1000000000⟩, none], []⟩).downloadTime = 1000000000 ∧
    (testProxy { downloadSize := 4, concurrent := 4, maxLatency := 10 } "n"
        ⟨"n", .ssh, []⟩
        ⟨false, 200, 5,
          [some ⟨1000, 1000000000⟩, some ⟨1000, 1000000000⟩,
           some ⟨1000, 1000000000⟩, none], []⟩).downloadSpeed = 3000 := by
  have h := (testProxy_download_aggregation
    { downloadSize := 4, concurrent := 4, maxLatency := 10 } "n" ⟨"n", .ssh, []⟩
    ⟨false, 200, 5,
      [some ⟨1000, 1000000000⟩, some ⟨1000, 1000000000⟩,
       some ⟨1000, 1000000000⟩, none], []⟩
    rfl rfl rfl (by decide) (by decide) (by decide)).1 (by decide)
  obtain ⟨h1, h2, h3⟩ := h
  have hsz : (testProxy { downloadSize := 4, concurrent := 4, maxLatency := 10 } "n"
      ⟨"n", .ssh, []⟩
      ⟨false, 200, 5,
        [some ⟨1000, 1000000000⟩, some ⟨1000, 1000000000⟩,
         some ⟨1000, 1000000000⟩, none], []⟩).downloadSize = 3000 := by
    rw [h1]; norm_num [specSumBytes, List.filterMap_cons, List.filterMap_nil]
  have htm : (testProxy { downloadSize := 4, concurrent := 4, maxLatency := 10 } "n"
      ⟨"n", .ssh, []⟩
      ⟨false, 200, 5,
        [some ⟨1000, 1000000000⟩, some ⟨1000, 1000000000⟩,
         some ⟨1000, 1000000000⟩, none], []⟩).downloadTime = 1000000000 := by
    rw [h2, specMeanDur, Nat.floor_div_nat, Nat.floor_natCast]
    decide
  refine ⟨hsz, htm, ?_⟩
  rw [h3, hsz, htm]
  norm_num [durationSeconds]

/-- Spec: the sum of squared deviations of the samples from a center `a`. -/
def specSqDevSum (l : List Nat) (a : Nat) : ℚ :=
  (l.map (fun x => ((x : ℚ) - (a : ℚ)) * ((x : ℚ) - (a : ℚ)))).sum

/-- Spec: the mean squared deviation of the samples from a center `a`. -/
def specVar (l : List Nat) (a : Nat) : ℚ := specSqDevSum l a / (l.length : ℚ)

theorem foldl_add_map {α : Type} (f : α → ℚ) :
    ∀ (l : List α) (init : ℚ),
      l.foldl (fun acc x => acc + f x) init = init + (l.map f).sum := by
  intro l
  induction l with
  | nil => intro init; simp
  | cons x xs ih =>
    intro init
    simp only [List.foldl_cons, List.map_cons, List.sum_cons, ih]
    ring

theorem specVar_nonneg (l : List Nat) (a : Nat) : 0 ≤ specVar l a := by
  apply div_nonneg
  · apply List.sum_nonneg
    intro x hx
    simp only [List.mem_map] at hx
    obtain ⟨y, _, rfl⟩ := hx
    exact mul_self_nonneg _
  · exact_mod_cast Nat.zero_le _

/-- Claim C8 (amended). `calculateLatencyStats` returns packet loss
`failed / 6 × 100` (the fixed attempt budget is 6).  With no samples the
average and the jitter are zero.  With samples, the average is the *floor*
of the arithmetic mean (Go `Duration` integer division), and the jitter is
the integer square-root floor of the mean squared deviation of the samples
from that truncated average: `jitter² ≤ variance < (jitter + 1)²`. -/
theorem calculateLatencyStats_spec (latencies : List Nat) (failedPings : Nat) :
    (calculateLatencyStats latencies failedPings).packetLoss
      = (failedPings : ℚ) / 6 * 100 ∧
    (latencies = [] →
      (calculateLatencyStats latencies failedPings).avgLatency = 0 ∧
      (calculateLatencyStats latencies failedPings).jitter = 0) ∧
    (latencies ≠ [] →
      (calculateLatencyStats latencies failedPings).avgLatency
          = ⌊specMeanLat latencies⌋₊ ∧
      (calculateLatencyStats latencies failedPings).jitter
          = Nat.sqrt ⌊specVar latencies
              ((calculateLatencyStats latencies failedPings).avgLatency)⌋₊ ∧
      ((calculateLatencyStats latencies failedPings).jitter : ℚ) ^ 2
          ≤ specVar latencies
              ((calculateLatencyStats latencies failedPings).avgLatency) ∧
      specVar latencies ((calculateLatencyStats latencies failedPings).avgLatency)
          < (((calculateLatencyStats latencies failedPings).jitter : ℚ) + 1) ^ 2) := by
  refine ⟨?_, ?_, ?_⟩
  · by_cases h : latencies.length = 0 <;> simp [calculateLatencyStats, h]
  · intro h; subst h; simp [calculateLatencyStats]
  · intro h
    have hlen : latencies.length ≠ 0 := by simpa using h
    have havg : (calculateLatencyStats latencies failedPings).avgLatency
        = latencies.sum / latencies.length := by
      simp [calculateLatencyStats, hlen, ← List.sum_eq_foldl]
    have hmean : (calculateLatencyStats latencies failedPings).avgLatency
        = ⌊specMeanLat latencies⌋₊ := by
      rw [havg, specMeanLat, ← Nat.cast_list_sum, Nat.floor_div_nat, Nat.floor_natCast]
    set a := (calculateLatencyStats latencies failedPings).avgLatency with ha
    have hvar : (latencies.foldl
        (fun acc l => acc + ((l : ℚ) - (a : ℚ)) * ((l : ℚ) - (a : ℚ))) 0) /
          (latencies.length : ℚ) = specVar latencies a := by
      rw [foldl_add_map, specVar, specSqDevSum, zero_add]
    have hjit : (calculateLatencyStats latencies failedPings).jitter
        = Nat.sqrt ⌊specVar latencies a⌋₊ := by
      simp only [calculateLatencyStats, if_neg hlen]
      rw [← Int.floor_toNat]
      congr 2
      rw [← hvar, ha]
      simp [calculateLatencyStats, hlen, ← List.sum_eq_foldl]
    have hv0 : (0 : ℚ) ≤ specVar latencies a := specVar_nonneg latencies a
    refine ⟨hmean, hjit, ?_, ?_⟩
    · rw [hjit]
      calc ((Nat.sqrt ⌊specVar latencies a⌋₊ : ℚ)) ^ 2
          = ((Nat.sqrt ⌊specVar latencies a⌋₊ ^ 2 : ℕ) : ℚ) := by push_cast; ring
        _ ≤ ((⌊specVar latencies a⌋₊ : ℕ) : ℚ) := by
            exact_mod_cast Nat.sqrt_le' _
        _ ≤ specVar latencies a := Nat.floor_le hv0
    · rw [hjit]
      calc specVar latencies a < ⌊specVar latencies a⌋₊ + 1 :=
            Nat.lt_floor_add_one _
        _ ≤ ((Nat.sqrt ⌊specVar latencies a⌋₊ + 1 : ℕ) ^ 2 : ℚ) := by
            have := Nat.lt_succ_sqrt' ⌊specVar latencies a⌋₊
            push_cast
            exact_mod_cast by exact_mod_cast Nat.succ_le_of_lt this
        _ = (((Nat.sqrt ⌊specVar latencies a⌋₊ : ℚ)) + 1) ^ 2 := by push_cast; ring

/-- Counterexample to C8 as stated: samples of 1 ns and 2 ns give an average
latency of 1 ns (integer division of 3 by 2), not the arithmetic mean
3/2 ns. -/
theorem calculateLatencyStats_avg_not_mean :
    ((calculateLatencyStats [1, 2] 0).avgLatency : ℚ) ≠ specMeanLat [1, 2] := by
  norm_num [calculateLatencyStats, specMeanLat]

/-- Witness for C8 (amended): samples 1 and 2 with 3 failed probes give 50 %
packet loss, average 1 ns (the floor of 3/2) and jitter 0 (the integer
square root of the variance 1/2 about the truncated average). -/
theorem calculateLatencyStats_spec_witness :
    (calculateLatencyStats [1, 2] 3).packetLoss = 50 ∧
    (calculateLatencyStats [1, 2] 3).avgLatency = 1 ∧
    (calculateLatencyStats [1, 2] 3).jitter = 0 := by
  obtain ⟨hpl, _, hs⟩ := calculateLatencyStats_spec [1, 2] 3
  obtain ⟨havg, hjit, _, _⟩ := hs (by decide)
  have h1 : (calculateLatencyStats [1, 2] 3).avgLatency = 1 := by
    rw [havg, specMeanLat]
    rw [Nat.floor_eq_iff (by norm_num)] <;> norm_num
  refine ⟨by rw [hpl]; norm_num, h1, ?_⟩
  rw [hjit, h1]
  have h2 : ⌊specVar [1, 2] 1⌋₊ = 0 := by
    rw [Nat.floor_eq_iff (by exact specVar_nonneg [1, 2] 1)]
    norm_num [specVar, specSqDevSum]
  rw [h2]
  rfl

theorem startsWithChars_iff :
    ∀ (sub s : List Char), startsWithChars sub s = true ↔ ∃ r, s = sub ++ r := by
  intro sub
  induction sub with
  | nil => intro s; simpa [startsWithChars] using ⟨s, rfl⟩
  | cons a as ih =>
    intro s
    cases s with
    | nil => simp [startsWithChars]
    | cons b bs =>
      simp only [startsWithChars, Bool.and_eq_true, beq_iff_eq, ih,
        List.cons_append, List.cons.injEq]
      constructor
      · rintro ⟨rfl, r, rfl⟩; exact ⟨r, rfl, rfl⟩
      · rintro ⟨r, rfl, rfl⟩; exact ⟨rfl, r, rfl⟩

/-- Lemma: `containsChars` is Go `strings.Contains`: the needle occurs contiguously
somewhere in the haystack. -/
theorem containsChars_iff :
    ∀ (s sub : List Char), containsChars s sub = true ↔ ∃ l r, s = l ++ sub ++ r := by
  intro s
  induction s with
  | nil =>
    intro sub
    simp only [containsChars, startsWithChars_iff]
    constructor
    · intro h
      split at h
      · next hs =>
        obtain ⟨r, hr⟩ := (startsWithChars_iff sub []).mp hs
        exact ⟨[], r, by simpa using hr⟩
      · simp at h
    · rintro ⟨l, r, hl⟩
      have : l = [] ∧ sub ++ r = [] := by
        constructor
        · cases l with
          | nil => rfl
          | cons x xs => simp at hl
        · cases l with
          | nil => simpa using hl.symm
          | cons x xs => simp at hl
      obtain ⟨rfl, h2⟩ := this
      have hsub : sub = [] := by
        cases sub with
        | nil => rfl
        | cons x xs => simp at h2
      subst hsub
      simp [startsWithChars]
  | cons c t ih =>
    intro sub
    by_cases h : startsWithChars sub (c :: t) = true
    · simp only [containsChars, h, if_true, true_iff]
      obtain ⟨r, hr⟩ := (startsWithChars_iff sub (c :: t)).mp h
      exact ⟨[], r, by simpa using hr⟩
    · have hstep : containsChars (c :: t) sub = containsChars t sub := by
        simp [containsChars, h]
      rw [hstep, ih]
      constructor
      · rintro ⟨l, r, rfl⟩
        exact ⟨c :: l, r, rfl⟩
      · rintro ⟨l, r, hl⟩
        cases l with
        | nil =>
          exfalso
          apply h
          rw [startsWithChars_iff]
          exact ⟨r, by simpa using hl⟩
        | cons x xs =>
          simp only [List.cons_append, List.cons.injEq] at hl
          exact ⟨xs, r, hl.2⟩

/-- Membership in the filtered registry's key set, characterized. -/
theorem mem_keys_filterProxies (allow : String → Bool) (kws : List (List Char))
    (m : List (String × CProxy)) (name : String) :
    name ∈ (filterProxies allow kws m).map Prod.fst ↔
      (name ∈ m.map Prod.fst ∧ isBlocked kws name = false ∧ allow name = true) := by
  simp only [filterProxies, List.mem_map, List.mem_filter, Bool.and_eq_true,
    Bool.not_eq_true']
  constructor
  · rintro ⟨kp, ⟨hmem, hblock, hallow⟩, rfl⟩
    exact ⟨⟨kp, hmem, rfl⟩, hblock, hallow⟩
  · rintro ⟨⟨kp, hmem, rfl⟩, hblock, hallow⟩
    exact ⟨kp, ⟨hmem, hblock, hallow⟩, rfl⟩

/-- Claim C6. A proxy name is excluded whenever its lower-cased form contains
one of the configured block keywords (`BlockRegex` split on `|`, trimmed,
lower-cased, compared as substrings) — regardless of the allow pattern —
and a name of the merged registry appears in the filtered registry iff it is
not blocked and matches the allow pattern. -/
theorem filterProxies_block_and_allow
    (allow : String → Bool) (br : String) (m : List (String × CProxy))
    (name : String) :
    (isBlocked (blockKeywords br) name = true →
      name ∉ (filterProxies allow (blockKeywords br) m).map Prod.fst) ∧
    (name ∈ (filterProxies allow (blockKeywords br) m).map Prod.fst ↔
      (name ∈ m.map Prod.fst ∧
        isBlocked (blockKeywords br) name = false ∧ allow name = true)) ∧
    (isBlocked (blockKeywords br) name = true ↔
      ∃ kw ∈ blockKeywords br, ∃ l r, lowerChars name.data = l ++ kw ++ r) := by
  refine ⟨?_, mem_keys_filterProxies allow (blockKeywords br) m name, ?_⟩
  · intro hb hmem
    rw [mem_keys_filterProxies] at hmem
    rw [hmem.2.1] at hb
    cases hb
  · simp only [isBlocked, List.any_eq_true]
    constructor
    · rintro ⟨kw, hkw, hc⟩
      exact ⟨kw, hkw, (containsChars_iff _ _).mp hc⟩
    · rintro ⟨kw, hkw, hoc⟩
      exact ⟨kw, hkw, (containsChars_iff _ _).mpr hoc⟩

/-- Witness for C6: with `BlockRegex = "bad| x "`, the name `"MyBADnode"`
(whose lower-cased form contains `"bad"`) is excluded although the allow
pattern accepts everything, while `"good"` is kept. -/
theorem filterProxies_block_and_allow_witness :
    "MyBADnode" ∉
      (filterProxies (fun _ => true) (blockKeywords "bad| x ")
        [("MyBADnode", ⟨"MyBADnode", PType.ssh, []⟩),
         ("good", ⟨"good", PType.ssh, []⟩)]).map Prod.fst ∧
    "good" ∈
      (filterProxies (fun _ => true) (blockKeywords "bad| x ")
        [("MyBADnode", ⟨"MyBADnode", PType.ssh, []⟩),
         ("good", ⟨"good", PType.ssh, []⟩)]).map Prod.fst := by
  constructor
  · exact (filterProxies_block_and_allow (fun _ => true) "bad| x "
      [("MyBADnode", ⟨"MyBADnode", PType.ssh, []⟩),
       ("good", ⟨"good", PType.ssh, []⟩)] "MyBADnode").1 (by decide)
  · exact (filterProxies_block_and_allow (fun _ => true) "bad| x "
      [("MyBADnode", ⟨"MyBADnode", PType.ssh, []⟩),
       ("good", ⟨"good", PType.ssh, []⟩)] "good").2.1.mpr
      ⟨by decide, by decide, rfl⟩

/-- Claim C5. With a compiling allow pattern, `LoadProxies` fails iff zero
proxies survive parsing and filtering: an empty filtered registry yields
exactly the named no-proxies error and no mapping, a non-empty one is
returned as-is with no error.  A fetch/parse failure of one source, or of
one provider inside a source, never fails the load: the failing item is
skipped and contributes nothing. -/
theorem loadProxies_failure_iff_empty
    (stash : Bool) (ipFix : String → String) (allow : String → Bool)
    (br : String) :
    (∀ sources,
      loadProxies stash ipFix (some allow) br sources
          = some (.error noProxiesMsg) ↔
        filterProxies allow (blockKeywords br)
          (mergedProxies stash ipFix sources) = []) ∧
    (∀ sources,
      filterProxies allow (blockKeywords br)
          (mergedProxies stash ipFix sources) ≠ [] →
        loadProxies stash ipFix (some allow) br sources
          = some (.ok (filterProxies allow (blockKeywords br)
              (mergedProxies stash ipFix sources)))) ∧
    (∀ pre post,
      loadProxies stash ipFix (some allow) br (pre ++ none :: post)
        = loadProxies stash ipFix (some allow) br (pre ++ post)) ∧
    (∀ direct provs1 pname provs2,
      buildSource ⟨direct, provs1 ++ (pname, none) :: provs2⟩
        = buildSource ⟨direct, provs1 ++ provs2⟩) := by
  refine ⟨?_, ?_, ?_, ?_⟩
  · intro sources
    simp only [loadProxies]
    by_cases h : (filterProxies allow (blockKeywords br)
        (mergedProxies stash ipFix sources)).isEmpty
    · simp only [if_pos h]
      simpa [List.isEmpty_iff] using h
    · simp only [if_neg h]
      rw [List.isEmpty_iff] at h
      simp [h]
  · intro sources h
    have h' : ¬ (filterProxies allow (blockKeywords br)
        (mergedProxies stash ipFix sources)).isEmpty := by
      simpa [List.isEmpty_iff] using h
    simp [loadProxies, if_neg h']
  · intro pre post
    simp only [loadProxies, mergedProxies, List.foldl_append, List.foldl_cons]
  · intro direct provs1 pname provs2
    simp only [buildSource, addProviders, List.foldl_append, List.foldl_cons]

/-- Witness for C5: one good source yields its registry with no error, and
adding a failing source changes nothing; an empty source list yields the
named error. -/
theorem loadProxies_failure_iff_empty_witness :
    loadProxies false id (some fun _ => true) ""
        [none, some ⟨[some ⟨"A", PType.ssh, []⟩], []⟩]
      = some (.ok [("A", ⟨"A", PType.ssh, []⟩)]) ∧
    loadProxies false id (some fun _ => true) "" []
      = some (.error noProxiesMsg) := by
  have h := loadProxies_failure_iff_empty false id (fun _ => true) ""
  have hval : filterProxies (fun _ => true) (blockKeywords "")
      (mergedProxies false id [some ⟨[some ⟨"A", PType.ssh, []⟩], []⟩])
      = [("A", ⟨"A", PType.ssh, []⟩)] := rfl
  constructor
  · have hskip := h.2.2.1 [] [some ⟨[some ⟨"A", PType.ssh, []⟩], []⟩]
    have hone := h.2.1 [some ⟨[some ⟨"A", PType.ssh, []⟩], []⟩]
      (by rw [hval]; simp)
    rw [List.nil_append] at hskip
    rw [hval] at hone
    exact hskip.trans hone
  · exact (h.1 []).mpr rfl

theorem keys_insertNamed {α : Type} (m : List (String × α)) (k : String) (v : α) :
    (insertNamed m k v).map Prod.fst
      = m.map Prod.fst ++ [freshName (m.map Prod.fst) k] := by
  simp [insertNamed]

theorem nodup_keys_insertNamed {α : Type} {m : List (String × α)}
    (h : (m.map Prod.fst).Nodup) (k : String) (v : α) :
    ((insertNamed m k v).map Prod.fst).Nodup := by
  rw [keys_insertNamed]
  have hf := freshName_not_mem (m.map Prod.fst) k
  simp [List.nodup_append, h, hf]

theorem nodup_keys_addDirect :
    ∀ (entries : List (Option CProxy)) (m : List (String × CProxy)),
      (m.map Prod.fst).Nodup → ((addDirect m entries).map Prod.fst).Nodup := by
  intro entries
  induction entries with
  | nil => intro m hm; simpa [addDirect] using hm
  | cons e t ih =>
    intro m hm
    cases e with
    | none => exact ih m hm
    | some p => exact ih _ (nodup_keys_insertNamed hm p.name p)

theorem nodup_keys_addProvider (pname : String) (pr : ProviderRaw) :
    ∀ (plist : List (String × PType)) (m : List (String × CProxy)),
      (m.map Prod.fst).Nodup →
      ((plist.foldl
        (fun m pp =>
          match lookupAssoc (buildCfgMap pr.rawCfgs) pp.1 with
          | some cfg => insertNamed m ("[" ++ pname ++ "] " ++ pp.1) ⟨pp.1, pp.2, cfg⟩
          | none => m) m).map Prod.fst).Nodup := by
  intro plist
  induction plist with
  | nil => intro m hm; simpa using hm
  | cons pp t ih =>
    intro m hm
    simp only [List.foldl_cons]
    cases hc : lookupAssoc (buildCfgMap pr.rawCfgs) pp.1 with
    | none => simp only [hc]; exact ih m hm
    | some cfg => simp only [hc]; exact ih _ (nodup_keys_insertNamed hm _ _)

theorem addProvider_eq (m : List (String × CProxy)) (pname : String)
    (pr : ProviderRaw) :
    addProvider m pname pr
      = pr.plist.foldl
          (fun m pp =>
            match lookupAssoc (buildCfgMap pr.rawCfgs) pp.1 with
            | some cfg => insertNamed m ("[" ++ pname ++ "] " ++ pp.1) ⟨pp.1, pp.2, cfg⟩
            | none => m) m := rfl

theorem nodup_keys_addProviders :
    ∀ (provs : List (String × Option ProviderRaw)) (m : List (String × CProxy)),
      (m.map Prod.fst).Nodup → ((addProviders m provs).map Prod.fst).Nodup := by
  intro provs
  induction provs with
  | nil => intro m hm; simpa [addProviders] using hm
  | cons pr t ih =>
    intro m hm
    cases h2 : pr.2 with
    | none =>
      have : addProviders m (pr :: t) = addProviders m t := by
        simp [addProviders, h2]
      rw [this]; exact ih m hm
    | some raw =>
      by_cases hres : pr.1 = reservedProviderName
      · have : addProviders m (pr :: t) = addProviders m t := by
          simp [addProviders, h2, hres]
        rw [this]; exact ih m hm
      · have : addProviders m (pr :: t) = addProviders (addProvider m pr.1 raw) t := by
          simp [addProviders, h2, hres]
        rw [this]
        exact ih _ (by rw [addProvider_eq]; exact nodup_keys_addProvider pr.1 raw raw.plist m hm)

theorem nodup_keys_buildSource (s : SourceData) :
    ((buildSource s).map Prod.fst).Nodup :=
  nodup_keys_addProviders s.providers _ (nodup_keys_addDirect s.direct [] (by simp))

theorem nodup_keys_mergeSource (stash : Bool) (ipFix : String → String) :
    ∀ (src : List (String × CProxy)) (acc : List (String × CProxy)),
      (acc.map Prod.fst).Nodup → ((mergeSource stash ipFix acc src).map Prod.fst).Nodup := by
  intro src
  induction src with
  | nil => intro acc hacc; simpa [mergeSource] using hacc
  | cons kp t ih =>
    intro acc hacc
    simp only [mergeSource, List.foldl_cons]
    by_cases hs : supportedType kp.2.ptype
    · simp only [hs, if_true]
      by_cases hc : stash && !isStashCompatible (fixServer ipFix kp.2)
      · simp only [hc, if_true]
        exact ih acc hacc
      · simp only [hc, if_false]
        exact ih _ (nodup_keys_insertNamed hacc _ _)
    · simp only [hs, if_false]
      exact ih acc hacc

theorem nodup_keys_mergedProxies (stash : Bool) (ipFix : String → String)
    (sources : List (Option SourceData)) :
    ((mergedProxies stash ipFix sources).map Prod.fst).Nodup := by
  suffices h : ∀ (ss : List (Option SourceData)) (acc : List (String × CProxy)),
      (acc.map Prod.fst).Nodup →
      ((ss.foldl
        (fun acc s =>
          match s with
          | none => acc
          | some sd => mergeSource stash ipFix acc (buildSource sd)) acc).map Prod.fst).Nodup by
    exact h sources [] (by simp)
  intro ss
  induction ss with
  | nil => intro acc hacc; simpa using hacc
  | cons s t ih =>
    intro acc hacc
    cases s with
    | none => exact ih acc hacc
    | some sd => exact ih _ (nodup_keys_mergeSource stash ipFix (buildSource sd) acc hacc)

/-- Claim C4. Every name key of the registry `LoadProxies` returns is unique,
and every insertion — within one source (direct proxies, provider proxies)
or across sources, all of which insert through the same rename policy —
keeps all previously merged entries, inserts the new proxy under a key not
yet in use (its own name when free, otherwise the `-重名N` variant with the
least counter `N ≥ 1` whose name is free), and therefore never overwrites
or silently drops a colliding entry. -/
theorem loadProxies_unique_names :
    (∀ (stash : Bool) (ipFix : String → String) (allow : String → Bool)
        (br : String) (sources : List (Option SourceData))
        (m : List (String × CProxy)),
      loadProxies stash ipFix (some allow) br sources = some (.ok m) →
      (m.map Prod.fst).Nodup) ∧
    (∀ (α : Type) (m : List (String × α)) (k : String) (v : α),
      (∀ e ∈ m, e ∈ insertNamed m k v) ∧
      (freshName (m.map Prod.fst) k ∉ m.map Prod.fst ∧
        (freshName (m.map Prod.fst) k, v) ∈ insertNamed m k v) ∧
      (k ∉ m.map Prod.fst → insertNamed m k v = m ++ [(k, v)]) ∧
      (k ∈ m.map Prod.fst →
        ∃ n, 1 ≤ n ∧
          insertNamed m k v = m ++ [(renameCandidate k n, v)] ∧
          renameCandidate k n ∉ m.map Prod.fst ∧
          ∀ j, 1 ≤ j → j < n → renameCandidate k j ∈ m.map Prod.fst)) := by
  constructor
  · intro stash ipFix allow br sources m hload
    have hm : m = filterProxies allow (blockKeywords br)
        (mergedProxies stash ipFix sources) := by
      simp only [loadProxies] at hload
      split at hload
      · simp at hload
      · simpa using hload.symm
    subst hm
    have hsub : ((filterProxies allow (blockKeywords br)
          (mergedProxies stash ipFix sources)).map Prod.fst).Sublist
        ((mergedProxies stash ipFix sources).map Prod.fst) :=
      (List.filter_sublist _).map Prod.fst
    exact (nodup_keys_mergedProxies stash ipFix sources).sublist hsub
  · intro α m k v
    refine ⟨?_, ⟨freshName_not_mem _ _, ?_⟩, ?_, ?_⟩
    · intro e he; simp [insertNamed, he]
    · simp [insertNamed]
    · intro hk; simp [insertNamed, freshName_of_not_mem hk]
    · intro hk
      obtain ⟨n, hn1, hn2, hn3, hn4⟩ := freshName_of_mem hk
      exact ⟨n, hn1, by simp [insertNamed, hn2], hn3, hn4⟩

/-- Witness for C4: a source declaring two proxies both named `"A"` loads
both, the second under `"A-重名1"`, and the final key set is duplicate-free. -/
theorem loadProxies_unique_names_witness :
    (["A", "A-重名1"] : List String).Nodup ∧
    insertNamed [("A", (1 : Nat))] "A" 2 = [("A", 1), ("A-重名1", 2)] := by
  constructor
  · have h := loadProxies_unique_names.1 false id (fun _ => true) ""
      [some ⟨[some ⟨"A", PType.ssh, []⟩, some ⟨"A", PType.ssh, []⟩], []⟩]
      [("A", ⟨"A", PType.ssh, []⟩), ("A-重名1", ⟨"A", PType.ssh, []⟩)] rfl
    simpa using h
  · rfl

end ClashSpeedtest
